import Mathlib

/-!
Verification of the CookBook API (FastAPI + SQLAlchemy recipe catalog).

The relational store (tables `recipes`, `ingredients`, join table
`recipe_ingredient` from `fast_api/models.py`) is embedded as a `DB`
structure; each HTTP handler from `fast_api/main.py` becomes a function
from `DB` to a result paired with the successor state.  Ids are
SQLite-style rowids: a freshly inserted row gets `max existing id + 1`.
The join table has a composite primary key `(recipe_id, ingredient_id)`,
so inserting a pair that is already present is an integrity violation;
an uncaught integrity error surfaces as a 500 response and the
transaction is rolled back.
-/

namespace CookBook

/-- Row of the `ingredients` table (`fast_api/models.py`, class `Ingredient`). -/
structure Ingredient where
  id : Int
  name : String
deriving Repr, DecidableEq

instance : Inhabited Ingredient := ⟨⟨0, ""⟩⟩

/-- Row of the `recipes` table (`fast_api/models.py`, class `Recipe`).
`views_count` has column default 0. -/
structure Recipe where
  id : Int
  title : String
  cooking_time : Int
  description : String
  views_count : Int
deriving Repr, DecidableEq

instance : Inhabited Recipe := ⟨⟨0, "", 0, "", 0⟩⟩

/-- The relational store: the two entity tables plus the
`recipe_ingredient` association table of `(recipe_id, ingredient_id)`
pairs (`fast_api/models.py`). -/
structure DB where
  recipes : List Recipe
  ingredients : List Ingredient
  assoc : List (Int × Int)
deriving Repr, DecidableEq

/-- SQLite rowid assignment for an insert: one more than the largest
existing id (1 on an empty table; ids here are never negative). -/
def nextId (ids : List Int) : Int := ids.foldl max 0 + 1

/-- An `HTTPException` as serialized by the exception handler in
`fast_api/main.py`: a status code and a `detail` message. -/
structure HTTPError where
  status : Nat
  detail : String
deriving Repr, DecidableEq

/-- Request body of `POST /recipes` (`fast_api/schemas.py`, `RecipeCreate`). -/
structure RecipeCreate where
  title : String
  cooking_time : Int
  description : String
  ingredient_ids : List Int
deriving Repr, DecidableEq

/-- Pydantic field validation of `RecipeCreate` (`fast_api/schemas.py`):
`title` has `max_length=200`, `cooking_time` has `gt=0`; `description`
and `ingredient_ids` are required but otherwise unconstrained. -/
def validateRecipeCreate (p : RecipeCreate) : Bool :=
  p.title.length ≤ 200 && 0 < p.cooking_time

/-- Response schema `IngredientResponse` (`fast_api/schemas.py`). -/
structure IngredientResponse where
  id : Int
  name : String
deriving Repr, DecidableEq

/-- Response schema `RecipeResponse` (`fast_api/schemas.py`): full detail
including the ingredient list. -/
structure RecipeResponse where
  id : Int
  title : String
  cooking_time : Int
  description : String
  views_count : Int
  ingredients : List IngredientResponse
deriving Repr, DecidableEq

/-- Response schema `RecipeListResponse` (`fast_api/schemas.py`): summary
projection without description and ingredients. -/
structure RecipeListResponse where
  id : Int
  title : String
  cooking_time : Int
  views_count : Int
deriving Repr, DecidableEq

def Ingredient.toResponse (i : Ingredient) : IngredientResponse :=
  ⟨i.id, i.name⟩

/-- The `ingredients` relationship of a recipe, loaded through the
`recipe_ingredient` join table. -/
def recipeIngredients (st : DB) (rid : Int) : List Ingredient :=
  st.ingredients.filter (fun i => st.assoc.contains (rid, i.id))

/-- Serialize a recipe row as a `RecipeResponse`, resolving its
ingredient relationship against the store. -/
def Recipe.toResponse (st : DB) (r : Recipe) : RecipeResponse :=
  ⟨r.id, r.title, r.cooking_time, r.description, r.views_count,
    (recipeIngredients st r.id).map Ingredient.toResponse⟩

def Recipe.toListResponse (r : Recipe) : RecipeListResponse :=
  ⟨r.id, r.title, r.cooking_time, r.views_count⟩

/-- The `ORDER BY views_count DESC, cooking_time ASC` comparator used by
`get_recipes` (`fast_api/main.py`): `a` may precede `b` iff `a` has more
views, or equal views and no larger cooking time (rows equal on both
keys may appear in either order). -/
def recipeLe (a b : Recipe) : Bool :=
  b.views_count < a.views_count ||
    (a.views_count == b.views_count && a.cooking_time ≤ b.cooking_time)

/-- Handler of `GET /recipes` (`fast_api/main.py`, `get_recipes`):
all recipe rows, sorted by views descending then cooking time
ascending, projected to the summary schema.  A pure read. -/
def get_recipes (st : DB) : List RecipeListResponse × DB :=
  ((st.recipes.mergeSort recipeLe).map Recipe.toListResponse, st)

/-- Apply `f` to the first element satisfying `p` (the row found by
`.first()` is mutated and committed; later duplicates are untouched). -/
def updateFirst (p : α → Bool) (f : α → α) : List α → List α
  | [] => []
  | x :: xs => if p x then f x :: xs else x :: updateFirst p f xs

/-- Handler of `GET /recipes/{recipe_id}` (`fast_api/main.py`,
`get_recipe`): find the first row with the given id; on a miss raise
404 naming the id and leave the store alone; on a hit increment that
row's `views_count`, commit, and return the refreshed full detail. -/
def get_recipe (recipe_id : Int) (st : DB) :
    Except HTTPError RecipeResponse × DB :=
  match st.recipes.find? (fun r => r.id == recipe_id) with
  | none =>
      (.error ⟨404, "Рецепт с ID " ++ toString recipe_id ++ " не найден"⟩, st)
  | some r =>
      let st' : DB :=
        { st with
          recipes := updateFirst (fun x => x.id == recipe_id)
            (fun x => { x with views_count := x.views_count + 1 }) st.recipes }
      (.ok (Recipe.toResponse st' { r with views_count := r.views_count + 1 }),
        st')

/-- The store after the view-count increment of `get_recipe` on `rid`:
the first row matching `rid` has its `views_count` bumped by 1. -/
def stAfterView (st : DB) (rid : Int) : DB :=
  { st with
    recipes := updateFirst (fun x => x.id == rid)
      (fun x => { x with views_count := x.views_count + 1 }) st.recipes }

/-- The ingredient-resolution loop of `create_recipe`
(`fast_api/main.py`): look each id up in order, aborting with a 404
naming the first id that does not resolve. -/
def resolveIngredients (st : DB) : List Int → Except HTTPError (List Ingredient)
  | [] => .ok []
  | x :: xs =>
      match st.ingredients.find? (fun i => i.id == x) with
      | none =>
          .error ⟨404, "Ингредиент с ID " ++ toString x ++ " не найден"⟩
      | some i =>
          match resolveIngredients st xs with
          | .error e => .error e
          | .ok rest => .ok (i :: rest)

/-- Insert association rows one by one.  The table's composite primary
key `(recipe_id, ingredient_id)` rejects a pair already present:
`none` models the integrity error that aborts the whole transaction. -/
def insertAssocRows : List (Int × Int) → List (Int × Int) → Option (List (Int × Int))
  | [], tbl => some tbl
  | p :: ps, tbl =>
      if tbl.contains p then none else insertAssocRows ps (tbl ++ [p])

/-- Handler of `POST /recipes` (`fast_api/main.py`, `create_recipe`),
after pydantic validation: resolve every ingredient id (404 on the
first missing one, nothing persisted); then insert the recipe row and
one association row per resolved ingredient and commit.  A duplicate
association pair violates the join table's primary key: the commit
fails, the transaction is rolled back and a 500 is returned.  On
success the refreshed recipe (fresh id, `views_count` 0, relationship
loaded from the join table) is returned. -/
def create_recipe (recipe_data : RecipeCreate) (st : DB) :
    Except HTTPError RecipeResponse × DB :=
  match resolveIngredients st recipe_data.ingredient_ids with
  | .error e => (.error e, st)
  | .ok ingredients =>
      let rid := nextId (st.recipes.map (fun r => r.id))
      match insertAssocRows (ingredients.map (fun i => (rid, i.id))) st.assoc with
      | none => (.error ⟨500, "Internal Server Error"⟩, st)
      | some assoc' =>
          let new_recipe : Recipe :=
            ⟨rid, recipe_data.title, recipe_data.cooking_time,
              recipe_data.description, 0⟩
          let st' : DB :=
            { st with recipes := st.recipes ++ [new_recipe], assoc := assoc' }
          (.ok (Recipe.toResponse st' new_recipe), st')

/-- The recipe row inserted by a successful `create_recipe`: fresh id,
payload fields, `views_count` 0 (the column default). -/
def createdRecipe (st : DB) (rc : RecipeCreate) : Recipe :=
  ⟨nextId (st.recipes.map (fun r => r.id)), rc.title, rc.cooking_time,
    rc.description, 0⟩

/-- The store after a successful create: recipe row appended, one
association row per supplied ingredient id. -/
def stAfterCreate (st : DB) (rc : RecipeCreate) : DB :=
  { st with
    recipes := st.recipes ++ [createdRecipe st rc],
    assoc := st.assoc ++ rc.ingredient_ids.map
      (fun x => ((createdRecipe st rc).id, x)) }

/-- HTTP status of a `POST /recipes` outcome: the route is declared with
`status_code=HTTP_201_CREATED`, and raised `HTTPException`s keep their
own status via the exception handler (`fast_api/main.py`). -/
def postRecipeStatus (res : Except HTTPError RecipeResponse) : Nat :=
  match res with
  | .ok _ => 201
  | .error e => e.status

/-- Handler of `GET /ingredients` (`fast_api/main.py`, `get_ingredients`):
every ingredient row, unfiltered.  A pure read. -/
def get_ingredients (st : DB) : List IngredientResponse × DB :=
  (st.ingredients.map Ingredient.toResponse, st)

/-- The 21 seeded ingredient names (`fast_api/database.py`,
`populate_test_data`, `ingredients_data`). -/
def ingredients_data : List String :=
  ["Спагетти", "Бекон", "Яйца", "Сыр Пармезан", "Чеснок", "Сливки",
   "Мука", "Сахар", "Яблоки", "Корица", "Сливочное масло", "Яйцо",
   "Куриное филе", "Лук", "Морковь", "Рис", "Соевый соус", "Имбирь",
   "Растительное масло", "Зеленый лук", "Кунжут"]

/-- Insert the seed ingredients in order.  `name` carries a UNIQUE
constraint, so a name already present makes the commit fail; `none`
models that integrity error (the caller rolls the whole batch back).
Returns the new table together with the freshly inserted rows, which
the seed routine then references positionally. -/
def insertIngredients : List String → List Ingredient →
    Option (List Ingredient × List Ingredient)
  | [], tbl => some (tbl, [])
  | n :: ns, tbl =>
      if tbl.any (fun i => i.name == n) then none
      else
        let ing : Ingredient := ⟨nextId (tbl.map (fun i => i.id)), n⟩
        match insertIngredients ns (tbl ++ [ing]) with
        | none => none
        | some (tbl', batch) => some (tbl', ing :: batch)

def carbonara_description : String :=
  "Классический итальянский рецепт пасты карбонара.\n\n            Шаги приготовления:\n            1. Отварите спагетти согласно инструкции на упаковке\n            2. Обжарьте бекон с чесноком до хрустящей корочки\n            3. Взбейте яйца с тертым пармезаном\n            4. Смешайте горячие спагетти с яичной смесью и беконом\n            5. Подавайте сразу же, украсив дополнительным сыром"

def apple_pie_description : String :=
  "Вкусный домашний яблочный пирог с корицей.\n\n            Шаги приготовления:\n            1. Приготовьте тесто из муки, масла, сахара и яйца\n            2. Нарежьте яблоки тонкими дольками\n            3. Смешайте яблоки с корицей и сахаром\n            4. Выложите начинку на тесто\n            5. Выпекайте при 180°C 35-40 минут до золотистой корочки"

def chicken_rice_description : String :=
  "Ароматное азиатское блюдо с курицей и рисом.\n\n            Шаги приготовления:\n            1. Обжарьте курицу с луком и морковью\n            2. Добавьте натертый имбирь и готовьте 2 минуты\n            3. Влейте соевый соус и добавьте отварной рис\n            4. Тщательно перемешайте и прогрейте\n            5. Подавайте, украсив зеленым луком и кунжутом"

/-- The seed routine (`fast_api/database.py`, `populate_test_data`): if
any recipe row exists, do nothing; otherwise insert the 21 ingredients
(rolling everything back on a unique-name violation), then the three
demonstration recipes with their association rows, referencing the
fresh ingredient batch by position exactly as the Python lists do. -/
def populate_test_data (st : DB) : DB :=
  if st.recipes.length > 0 then st
  else
    match insertIngredients ingredients_data st.ingredients with
    | none => st
    | some (ingTbl, ingredients) =>
        let ing (k : Nat) : Ingredient := ingredients.getD k default
        let carbonara_ingredients := [ing 0, ing 1, ing 2, ing 3, ing 4]
        let apple_pie_ingredients :=
          [ing 6, ing 7, ing 8, ing 9, ing 10, ing 11]
        let chicken_rice_ingredients :=
          [ing 12, ing 13, ing 14, ing 15, ing 16, ing 17, ing 18, ing 19,
            ing 20]
        let base := nextId (st.recipes.map (fun r => r.id))
        let carbonara : Recipe :=
          ⟨base, "Спагетти Карбонара", 20, carbonara_description, 0⟩
        let apple_pie : Recipe :=
          ⟨base + 1, "Яблочный пирог", 45, apple_pie_description, 0⟩
        let chicken_rice : Recipe :=
          ⟨base + 2, "Курица с рисом по-азиатски", 30,
            chicken_rice_description, 0⟩
        { recipes := st.recipes ++ [carbonara, apple_pie, chicken_rice],
          ingredients := ingTbl,
          assoc := st.assoc
            ++ carbonara_ingredients.map (fun i => (carbonara.id, i.id))
            ++ apple_pie_ingredients.map (fun i => (apple_pie.id, i.id))
            ++ chicken_rice_ingredients.map (fun i => (chicken_rice.id, i.id)) }

/-! ### Helper lemmas -/

theorem foldl_max_init_le (l : List Int) (init : Int) :
    init ≤ l.foldl max init := by
  induction l generalizing init with
  | nil => simp
  | cons a as ih => exact le_trans (le_max_left init a) (ih (max init a))

theorem mem_le_foldl_max (l : List Int) (init : Int) {x : Int} (hx : x ∈ l) :
    x ≤ l.foldl max init := by
  induction l generalizing init with
  | nil => simp at hx
  | cons a as ih =>
      rcases List.mem_cons.mp hx with rfl | h
      · exact le_trans (le_max_right init x) (foldl_max_init_le as _)
      · exact ih (max init a) h

theorem nextId_not_mem (l : List Int) : nextId l ∉ l := by
  intro h
  have := mem_le_foldl_max l 0 h
  simp only [nextId] at this
  omega

theorem updateFirst_length (p : α → Bool) (f : α → α) (l : List α) :
    (updateFirst p f l).length = l.length := by
  induction l with
  | nil => rfl
  | cons x xs ih =>
      by_cases hx : p x <;> simp [updateFirst, hx, ih]

theorem find?_updateFirst (p : α → Bool) (f : α → α) (l : List α) (a : α)
    (h : l.find? p = some a) (hf : p (f a) = true) :
    (updateFirst p f l).find? p = some (f a) := by
  induction l with
  | nil => simp at h
  | cons x xs ih =>
      by_cases hx : p x
      · rw [List.find?_cons_of_pos _ hx] at h
        cases h
        simp [updateFirst, hx, List.find?_cons_of_pos _ hf]
      · rw [List.find?_cons_of_neg _ hx] at h
        have hstep : updateFirst p f (x :: xs) = x :: updateFirst p f xs := by
          simp [updateFirst, hx]
        rw [hstep, List.find?_cons_of_neg _ hx]
        exact ih h

theorem updateFirst_getD (p : α → Bool) (f : α → α) (l : List α) (i : Nat)
    (d : α) :
    (updateFirst p f l).getD i d = l.getD i d ∨
      (updateFirst p f l).getD i d = f (l.getD i d) := by
  induction l generalizing i with
  | nil => left; rfl
  | cons x xs ih =>
      by_cases hx : p x
      · cases i with
        | zero => right; simp [updateFirst, hx]
        | succ n => left; simp [updateFirst, hx]
      · cases i with
        | zero => left; simp [updateFirst, hx]
        | succ n => simpa [updateFirst, hx] using ih n

theorem recipeLe_trans (a b c : Recipe) (hab : recipeLe a b)
    (hbc : recipeLe b c) : recipeLe a c := by
  simp only [recipeLe, Bool.or_eq_true, Bool.and_eq_true, decide_eq_true_eq,
    beq_iff_eq] at hab hbc ⊢
  omega

theorem recipeLe_total (a b : Recipe) : recipeLe a b || recipeLe b a := by
  simp only [recipeLe, Bool.or_eq_true, Bool.and_eq_true, decide_eq_true_eq,
    beq_iff_eq]
  omega

/-! ### Claim theorems -/

/-- C1: `GET /recipes` returns all stored recipes (a permutation of the
recipe table, projected to the summary schema), and whenever `r1`
precedes `r2` in the response, either `r1.views_count > r2.views_count`,
or they are equal and `r1.cooking_time ≤ r2.cooking_time`. -/
theorem get_recipes_returns_all_sorted (st : DB) :
    (get_recipes st).1.Perm (st.recipes.map Recipe.toListResponse) ∧
    (get_recipes st).1.Pairwise (fun r1 r2 =>
      r2.views_count < r1.views_count ∨
        (r1.views_count = r2.views_count ∧
          r1.cooking_time ≤ r2.cooking_time)) := by
  constructor
  · exact (List.mergeSort_perm st.recipes recipeLe).map _
  · have h := List.sorted_mergeSort recipeLe_trans recipeLe_total st.recipes
    refine List.pairwise_map.mpr (h.imp ?_)
    intro a b hab
    simpa only [recipeLe, Bool.or_eq_true, Bool.and_eq_true,
      decide_eq_true_eq, beq_iff_eq] using hab

/-- C3: fetching a recipe id with no matching row yields a 404 whose
detail message contains the requested id, and the store is returned
unchanged. -/
theorem get_recipe_not_found (st : DB) (rid : Int)
    (h : st.recipes.find? (fun r => r.id == rid) = none) :
    get_recipe rid st =
      (.error ⟨404, "Рецепт с ID " ++ toString rid ++ " не найден"⟩, st) ∧
    ∃ s1 s2, "Рецепт с ID " ++ toString rid ++ " не найден" =
      s1 ++ toString rid ++ s2 := by
  refine ⟨?_, "Рецепт с ID ", " не найден", rfl⟩
  simp [get_recipe, h]

/-- C3 witness: `GET /recipes/9999` on the empty store. -/
theorem get_recipe_not_found_witness :
    get_recipe 9999 ⟨[], [], []⟩ =
      (.error ⟨404, "Рецепт с ID " ++ toString (9999 : Int) ++ " не найден"⟩,
        ⟨[], [], []⟩) ∧
    ∃ s1 s2, "Рецепт с ID " ++ toString (9999 : Int) ++ " не найден" =
      s1 ++ toString (9999 : Int) ++ s2 :=
  get_recipe_not_found ⟨[], [], []⟩ 9999 rfl

/-- C10: `GET /recipes` and `GET /ingredients` are pure reads — both
return the store exactly as it was. -/
theorem list_endpoints_pure (st : DB) :
    (get_recipes st).2 = st ∧ (get_ingredients st).2 = st :=
  ⟨rfl, rfl⟩

/-- C2: fetching an existing recipe id increments that recipe's stored
`views_count` by exactly 1 and returns the post-increment count; a
second fetch of the same id increments it again, so two sequential
fetches return `v+1` then `v+2`. -/
theorem get_recipe_increments_views (st : DB) (rid : Int) (r : Recipe)
    (h : st.recipes.find? (fun x => x.id == rid) = some r) :
    ∃ resp st', get_recipe rid st = (.ok resp, st') ∧
      resp.views_count = r.views_count + 1 ∧
      st'.recipes.find? (fun x => x.id == rid) =
        some { r with views_count := r.views_count + 1 } ∧
      ∃ resp2 st'', get_recipe rid st' = (.ok resp2, st'') ∧
        resp2.views_count = r.views_count + 2 := by
  have hp : ((r.id == rid) = true) := by
    simpa using List.find?_some h
  have h2 : (updateFirst (fun x => x.id == rid)
      (fun x => { x with views_count := x.views_count + 1 })
      st.recipes).find? (fun x => x.id == rid) =
      some { r with views_count := r.views_count + 1 } :=
    find?_updateFirst _ _ _ _ h hp
  have hrun : get_recipe rid st =
      (.ok (Recipe.toResponse (stAfterView st rid)
          { r with views_count := r.views_count + 1 }),
        stAfterView st rid) := by
    simp only [get_recipe, h]; rfl
  have hrun2 : get_recipe rid (stAfterView st rid) =
      (.ok (Recipe.toResponse (stAfterView (stAfterView st rid) rid)
          { r with views_count := r.views_count + 1 + 1 }),
        stAfterView (stAfterView st rid) rid) := by
    simp only [get_recipe, stAfterView, h2]
  refine ⟨_, _, hrun, rfl, h2, _, _, hrun2, ?_⟩
  show r.views_count + 1 + 1 = r.views_count + 2
  omega

/-- C2 witness: a store with one recipe (id 1, 5 views); two fetches
return views 6 then 7. -/
theorem get_recipe_increments_views_witness :
    ∃ resp st',
      get_recipe 1 ⟨[⟨1, "Спагетти Карбонара", 20, "Классический итальянский рецепт", 5⟩], [], []⟩
        = (.ok resp, st') ∧
      resp.views_count = 5 + 1 ∧
      st'.recipes.find? (fun x => x.id == 1) =
        some { id := 1, title := "Спагетти Карбонара", cooking_time := 20,
               description := "Классический итальянский рецепт",
               views_count := 5 + 1 } ∧
      ∃ resp2 st'', get_recipe 1 st' = (.ok resp2, st'') ∧
        resp2.views_count = 5 + 2 :=
  get_recipe_increments_views
    ⟨[⟨1, "Спагетти Карбонара", 20, "Классический итальянский рецепт", 5⟩], [], []⟩
    1 ⟨1, "Спагетти Карбонара", 20, "Классический итальянский рецепт", 5⟩ rfl

/-- C8: every operation keeps each pre-existing recipe's `views_count`
non-decreasing (rows are compared positionally; no operation removes or
reorders rows), and a successfully created recipe starts with
`views_count = 0`. -/
theorem views_count_monotonic (st : DB) (rid : Int) (rc : RecipeCreate)
    (i : Nat) (hi : i < st.recipes.length) :
    (st.recipes.getD i default).views_count ≤
        ((get_recipes st).2.recipes.getD i default).views_count ∧
    (st.recipes.getD i default).views_count ≤
        ((get_recipe rid st).2.recipes.getD i default).views_count ∧
    (st.recipes.getD i default).views_count ≤
        ((create_recipe rc st).2.recipes.getD i default).views_count ∧
    (st.recipes.getD i default).views_count ≤
        ((get_ingredients st).2.recipes.getD i default).views_count ∧
    (∀ resp st', create_recipe rc st = (.ok resp, st') →
      resp.views_count = 0) := by
  refine ⟨le_refl _, ?_, ?_, le_refl _, ?_⟩
  · cases hf : st.recipes.find? (fun x => x.id == rid) with
    | none => simp [get_recipe, hf]
    | some r =>
        simp only [get_recipe, hf]
        rcases updateFirst_getD (fun x => x.id == rid)
            (fun x => { x with views_count := x.views_count + 1 })
            st.recipes i default with he | he
        · rw [he]
        · rw [he]
          show (st.recipes.getD i default).views_count ≤
            (st.recipes.getD i default).views_count + 1
          omega
  · cases hres : resolveIngredients st rc.ingredient_ids with
    | error e => simp [create_recipe, hres]
    | ok ings =>
        cases hins : insertAssocRows
            (ings.map (fun ing => (nextId (st.recipes.map (fun r => r.id)), ing.id)))
            st.assoc with
        | none => simp [create_recipe, hres, hins]
        | some assoc' =>
            simp only [create_recipe, hres, hins]
            simp only [List.getD_eq_getElem?_getD]
            rw [List.getElem?_append_left hi]
  · intro resp st' hc
    cases hres : resolveIngredients st rc.ingredient_ids with
    | error e => simp [create_recipe, hres] at hc
    | ok ings =>
        cases hins : insertAssocRows
            (ings.map (fun ing => (nextId (st.recipes.map (fun r => r.id)), ing.id)))
            st.assoc with
        | none => simp [create_recipe, hres, hins] at hc
        | some assoc' =>
            simp only [create_recipe, hres, hins, Prod.mk.injEq,
              Except.ok.injEq] at hc
            rw [← hc.1]
            rfl

/-- C8 witness: a one-recipe store, a detail fetch of id 1, and a
create request with no ingredients. -/
theorem views_count_monotonic_witness :
    0 < (DB.mk [⟨1, "Борщ", 60, "Суп", 4⟩] [] []).recipes.length ∧
    ((DB.mk [⟨1, "Борщ", 60, "Суп", 4⟩] [] []).recipes.getD 0 default).views_count ≤
      ((get_recipe 1 (DB.mk [⟨1, "Борщ", 60, "Суп", 4⟩] [] [])).2.recipes.getD 0
        default).views_count :=
  ⟨by decide,
    (views_count_monotonic ⟨[⟨1, "Борщ", 60, "Суп", 4⟩], [], []⟩ 1
      ⟨"Тест", 10, "Описание", []⟩ 0 (by decide)).2.1⟩

/-- If some id in the list has no matching ingredient row, resolution
fails with a 404 naming a missing id (the first one encountered). -/
theorem resolveIngredients_missing (st : DB) (ids : List Int)
    (h : ∃ x ∈ ids, st.ingredients.find? (fun i => i.id == x) = none) :
    ∃ bad, bad ∈ ids ∧
      st.ingredients.find? (fun i => i.id == bad) = none ∧
      resolveIngredients st ids =
        .error ⟨404, "Ингредиент с ID " ++ toString bad ++ " не найден"⟩ := by
  induction ids with
  | nil => simp at h
  | cons x xs ih =>
      by_cases hx : st.ingredients.find? (fun i => i.id == x) = none
      · exact ⟨x, List.mem_cons_self x xs, hx, by
          simp only [resolveIngredients, hx]⟩
      · obtain ⟨y, hy, hyn⟩ := h
        rcases List.mem_cons.mp hy with rfl | hmem
        · exact absurd hyn hx
        · obtain ⟨bad, hb1, hb2, hb3⟩ := ih ⟨y, hmem, hyn⟩
          obtain ⟨j, hj⟩ := Option.ne_none_iff_exists'.mp hx
          exact ⟨bad, List.mem_cons_of_mem _ hb1, hb2, by
            simp only [resolveIngredients, hj, hb3]⟩

/-- C4: a create request containing at least one unresolvable
ingredient id yields a 404 naming a missing id, and the store — recipe
rows, ingredient rows and association rows alike — is returned
unchanged. -/
theorem create_recipe_missing_ingredient (st : DB) (rc : RecipeCreate)
    (h : ∃ x ∈ rc.ingredient_ids,
      st.ingredients.find? (fun i => i.id == x) = none) :
    ∃ e, create_recipe rc st = (.error e, st) ∧ e.status = 404 ∧
      ∃ bad s1 s2, bad ∈ rc.ingredient_ids ∧
        st.ingredients.find? (fun i => i.id == bad) = none ∧
        e.detail = s1 ++ toString bad ++ s2 := by
  obtain ⟨bad, hb1, hb2, hb3⟩ := resolveIngredients_missing st _ h
  refine ⟨⟨404, "Ингредиент с ID " ++ toString bad ++ " не найден"⟩, ?_, rfl,
    bad, "Ингредиент с ID ", " не найден", hb1, hb2, rfl⟩
  simp only [create_recipe, hb3]

/-- C4 witness: creating a recipe with `ingredient_ids = [999, 1000]`
over a store with a single ingredient of id 1. -/
theorem create_recipe_missing_ingredient_witness :
    ∃ e, create_recipe ⟨"Рецепт", 30, "Описание", [999, 1000]⟩
        ⟨[], [⟨1, "Спагетти"⟩], []⟩ =
      (.error e, ⟨[], [⟨1, "Спагетти"⟩], []⟩) ∧ e.status = 404 ∧
      ∃ bad s1 s2, bad ∈ ([999, 1000] : List Int) ∧
        (DB.mk [] [⟨1, "Спагетти"⟩] []).ingredients.find?
          (fun i => i.id == bad) = none ∧
        e.detail = s1 ++ toString bad ++ s2 :=
  create_recipe_missing_ingredient ⟨[], [⟨1, "Спагетти"⟩], []⟩
    ⟨"Рецепт", 30, "Описание", [999, 1000]⟩ ⟨999, by decide, by decide⟩

/-- A fresh recipe id never owns a pre-existing association row, given
the foreign-key invariant on the association table. -/
theorem recipeIngredients_nextId (st : DB)
    (hfk : ∀ p ∈ st.assoc, p.1 ∈ st.recipes.map (fun r => r.id)) :
    ∀ i ∈ st.ingredients,
      st.assoc.contains (nextId (st.recipes.map (fun r => r.id)), i.id)
        = false := by
  intro i _
  simp only [List.contains, List.elem_eq_mem, decide_eq_false_iff_not]
  intro hmem
  exact nextId_not_mem _ (hfk _ hmem)

/-- C9: a valid create request whose `ingredient_ids` list is empty
succeeds with status 201 and an empty `ingredients` array in the
response (assuming the store's association rows all reference existing
recipes, as the foreign key guarantees). -/
theorem create_recipe_empty_ingredients (st : DB) (rc : RecipeCreate)
    (hv : validateRecipeCreate rc = true)
    (hids : rc.ingredient_ids = [])
    (hfk : ∀ p ∈ st.assoc, p.1 ∈ st.recipes.map (fun r => r.id)) :
    ∃ resp st', create_recipe rc st = (.ok resp, st') ∧
      postRecipeStatus (.ok resp) = 201 ∧
      resp.ingredients = [] := by
  have hres : resolveIngredients st rc.ingredient_ids = .ok [] := by
    rw [hids, resolveIngredients]
  have hrun : create_recipe rc st =
      (.ok (Recipe.toResponse
          { st with
            recipes := st.recipes ++
              [⟨nextId (st.recipes.map (fun r => r.id)), rc.title,
                rc.cooking_time, rc.description, 0⟩],
            assoc := st.assoc }
          ⟨nextId (st.recipes.map (fun r => r.id)), rc.title,
            rc.cooking_time, rc.description, 0⟩),
        { st with
          recipes := st.recipes ++
            [⟨nextId (st.recipes.map (fun r => r.id)), rc.title,
              rc.cooking_time, rc.description, 0⟩],
          assoc := st.assoc }) := by
    simp only [create_recipe, hres, List.map_nil, insertAssocRows]
  refine ⟨_, _, hrun, rfl, ?_⟩
  show ((recipeIngredients
      { st with
        recipes := st.recipes ++
          [⟨nextId (st.recipes.map (fun r => r.id)), rc.title,
            rc.cooking_time, rc.description, 0⟩],
        assoc := st.assoc }
      (nextId (st.recipes.map (fun r => r.id)))).map
        Ingredient.toResponse) = []
  rw [recipeIngredients]
  have hnil : st.ingredients.filter
      (fun i => st.assoc.contains
        (nextId (st.recipes.map (fun r => r.id)), i.id)) = [] := by
    rw [List.filter_eq_nil_iff]
    intro a ha
    rw [recipeIngredients_nextId st hfk a ha]
    exact Bool.false_ne_true
  simp only [hnil, List.map_nil]

/-- C9 witness: a valid payload with no ingredient ids over a seeded
one-recipe store. -/
theorem create_recipe_empty_ingredients_witness :
    validateRecipeCreate ⟨"Новый рецепт", 15, "Описание", []⟩ = true ∧
    ∃ resp st',
      create_recipe ⟨"Новый рецепт", 15, "Описание", []⟩
          ⟨[⟨1, "Борщ", 60, "Суп", 4⟩], [⟨1, "Свекла"⟩], [(1, 1)]⟩ =
        (.ok resp, st') ∧
      postRecipeStatus (.ok resp) = 201 ∧
      resp.ingredients = [] :=
  ⟨by decide,
    create_recipe_empty_ingredients
      ⟨[⟨1, "Борщ", 60, "Суп", 4⟩], [⟨1, "Свекла"⟩], [(1, 1)]⟩
      ⟨"Новый рецепт", 15, "Описание", []⟩ (by decide) rfl
      (by decide)⟩

/-- If every id in the list resolves, the resolution loop returns the
matched ingredient rows, in order, one per requested id. -/
theorem resolveIngredients_ok (st : DB) (ids : List Int)
    (h : ∀ x ∈ ids, ∃ i ∈ st.ingredients, i.id = x) :
    ∃ ings, resolveIngredients st ids = .ok ings ∧
      ings.map (fun i => i.id) = ids := by
  induction ids with
  | nil => exact ⟨[], rfl, rfl⟩
  | cons x xs ih =>
      obtain ⟨i0, hi0, hid⟩ := h x (List.mem_cons_self x xs)
      have hsome : (st.ingredients.find? (fun i => i.id == x)).isSome := by
        rw [List.find?_isSome]
        exact ⟨i0, hi0, by simp [hid]⟩
      obtain ⟨j, hj⟩ := Option.isSome_iff_exists.mp hsome
      have hjid : j.id = x := by
        simpa using List.find?_some hj
      obtain ⟨ings, h1, h2⟩ := ih (fun y hy => h y (List.mem_cons_of_mem _ hy))
      exact ⟨j :: ings, by simp only [resolveIngredients, hj, h1],
        by simp [h2, hjid]⟩

/-- Sequential insertion into the association table succeeds and appends
all rows when the batch has no duplicate pair and no pair collides with
an existing row. -/
theorem insertAssocRows_ok (ps : List (Int × Int)) :
    ∀ tbl, ps.Nodup → (∀ p ∈ ps, p ∉ tbl) →
      insertAssocRows ps tbl = some (tbl ++ ps) := by
  induction ps with
  | nil => intro tbl _ _; simp [insertAssocRows]
  | cons p ps ih =>
      intro tbl h1 h2
      have hnp : tbl.contains p = false := by
        simp only [List.contains, List.elem_eq_mem, decide_eq_false_iff_not]
        exact h2 p (List.mem_cons_self p ps)
      rw [insertAssocRows, hnp, if_neg (by simp)]
      rw [ih (tbl ++ [p]) (List.nodup_cons.mp h1).2 ?_]
      · simp
      · intro q hq
        rw [List.mem_append]
        rintro (hq1 | hq2)
        · exact h2 q (List.mem_cons_of_mem _ hq) hq1
        · rw [List.mem_singleton] at hq2
          subst hq2
          exact (List.nodup_cons.mp h1).1 hq

/-- Membership in the association table extended by a fresh recipe's
batch, when the fresh pair cannot already be present. -/
theorem contains_append_pairs (assoc : List (Int × Int)) (ids : List Int)
    (rid x : Int) (hno : (rid, x) ∉ assoc) :
    (assoc ++ ids.map (fun y => (rid, y))).contains (rid, x)
      = ids.contains x := by
  simp only [List.contains, List.elem_eq_mem]
  apply decide_eq_decide.mpr
  simp only [List.mem_append, List.mem_map, Prod.mk.injEq, true_and]
  constructor
  · rintro (hmem | ⟨y, hy, rfl⟩)
    · exact absurd hmem hno
    · exact hy
  · intro hx
    exact Or.inr ⟨x, hx, rfl⟩

/-- Filtering a table with pairwise-distinct ids down to a distinct id
list that is fully covered keeps exactly one row per requested id. -/
theorem filter_ids_length (l : List Ingredient) (ids : List Int)
    (hpk : (l.map (fun i => i.id)).Nodup) (hnd : ids.Nodup)
    (hsub : ∀ x ∈ ids, ∃ i ∈ l, i.id = x) :
    (l.filter (fun i => ids.contains i.id)).length = ids.length := by
  have hsl : ((l.filter (fun i => ids.contains i.id)).map
      (fun i => i.id)).Sublist (l.map (fun i => i.id)) :=
    (List.filter_sublist l).map _
  have hnd1 : ((l.filter (fun i => ids.contains i.id)).map
      (fun i => i.id)).Nodup := hsl.nodup hpk
  have hperm : ((l.filter (fun i => ids.contains i.id)).map
      (fun i => i.id)).Perm ids := by
    rw [List.perm_ext_iff_of_nodup hnd1 hnd]
    intro x
    constructor
    · intro hx
      obtain ⟨i, hi, rfl⟩ := List.mem_map.mp hx
      have hm := List.mem_filter.mp hi
      have := hm.2
      simpa only [List.contains, List.elem_eq_mem, decide_eq_true_eq]
        using this
    · intro hx
      obtain ⟨i, hi, rfl⟩ := hsub x hx
      refine List.mem_map_of_mem _ (List.mem_filter.mpr ⟨hi, ?_⟩)
      simpa only [List.contains, List.elem_eq_mem, decide_eq_true_eq]
        using hx
  have := hperm.length_eq
  simpa using this

/-- C5 counterexample: with ingredient 1 present, the payload
`ingredient_ids = [1, 1]` has all its ids existing, yet the request
does not succeed with 201 — the duplicate association pair violates
the join table's composite primary key, so create fails with a 500 and
nothing is persisted.  The claim's universally quantified success is
therefore false for payloads with duplicate ids. -/
theorem create_recipe_duplicate_ids_rejected :
    (∀ x ∈ ([1, 1] : List Int),
      ∃ i ∈ (DB.mk [] [⟨1, "Яйца"⟩] []).ingredients, i.id = x) ∧
    create_recipe ⟨"Тестовый рецепт", 30, "Описание", [1, 1]⟩
        (DB.mk [] [⟨1, "Яйца"⟩] []) =
      (.error ⟨500, "Internal Server Error"⟩, DB.mk [] [⟨1, "Яйца"⟩] []) ∧
    postRecipeStatus
      (create_recipe ⟨"Тестовый рецепт", 30, "Описание", [1, 1]⟩
        (DB.mk [] [⟨1, "Яйца"⟩] [])).1 ≠ 201 :=
  ⟨by decide, rfl, by decide⟩

/-- C5 (amended): a create request whose ingredient ids all exist and
are pairwise distinct succeeds with 201, `views_count = 0`, and an
`ingredients` array of one entry per supplied id (equivalently, per
de-duplicated id); the ingredient-table primary key and the
association-table foreign key are assumed.  With duplicate ids the
request instead fails on the join table's primary key. -/
theorem create_recipe_success_distinct (st : DB) (rc : RecipeCreate)
    (hex : ∀ x ∈ rc.ingredient_ids, ∃ i ∈ st.ingredients, i.id = x)
    (hnd : rc.ingredient_ids.Nodup)
    (hpk : (st.ingredients.map (fun i => i.id)).Nodup)
    (hfk : ∀ p ∈ st.assoc, p.1 ∈ st.recipes.map (fun r => r.id)) :
    ∃ resp st', create_recipe rc st = (.ok resp, st') ∧
      postRecipeStatus (.ok resp) = 201 ∧
      resp.views_count = 0 ∧
      resp.ingredients.length = rc.ingredient_ids.dedup.length := by
  obtain ⟨ings, hres, hmap⟩ := resolveIngredients_ok st _ hex
  have hpairs : ings.map
      (fun i => (nextId (st.recipes.map (fun r => r.id)), i.id))
      = rc.ingredient_ids.map
        (fun x => (nextId (st.recipes.map (fun r => r.id)), x)) := by
    conv_rhs => rw [← hmap]
    rw [List.map_map]
    rfl
  have hnotin : ∀ p ∈ rc.ingredient_ids.map
      (fun x => (nextId (st.recipes.map (fun r => r.id)), x)),
      p ∉ st.assoc := by
    intro p hp hmem
    obtain ⟨y, _, rfl⟩ := List.mem_map.mp hp
    exact nextId_not_mem _ (hfk _ hmem)
  have hpnd : (rc.ingredient_ids.map
      (fun x => (nextId (st.recipes.map (fun r => r.id)), x))).Nodup :=
    hnd.map (fun a b h => congrArg Prod.snd h)
  have hins : insertAssocRows
      (ings.map (fun i => (nextId (st.recipes.map (fun r => r.id)), i.id)))
      st.assoc
      = some (st.assoc ++ rc.ingredient_ids.map
          (fun x => (nextId (st.recipes.map (fun r => r.id)), x))) := by
    rw [hpairs]
    exact insertAssocRows_ok _ _ hpnd hnotin
  have hrun : create_recipe rc st =
      (.ok (Recipe.toResponse (stAfterCreate st rc) (createdRecipe st rc)),
        stAfterCreate st rc) := by
    simp only [create_recipe, hres, hins, stAfterCreate, createdRecipe]
  refine ⟨_, _, hrun, rfl, rfl, ?_⟩
  have hcg : ∀ i ∈ st.ingredients,
      (st.assoc ++ rc.ingredient_ids.map
        (fun x => (nextId (st.recipes.map (fun r => r.id)), x))).contains
        (nextId (st.recipes.map (fun r => r.id)), i.id)
      = rc.ingredient_ids.contains i.id := by
    intro i _
    apply contains_append_pairs
    intro hmem
    exact nextId_not_mem _ (hfk _ hmem)
  show ((recipeIngredients (stAfterCreate st rc)
      (createdRecipe st rc).id).map Ingredient.toResponse).length
    = rc.ingredient_ids.dedup.length
  rw [List.length_map]
  show (st.ingredients.filter (fun i =>
      (st.assoc ++ rc.ingredient_ids.map
        (fun x => (nextId (st.recipes.map (fun r => r.id)), x))).contains
        (nextId (st.recipes.map (fun r => r.id)), i.id))).length
    = rc.ingredient_ids.dedup.length
  rw [List.filter_congr hcg,
    filter_ids_length st.ingredients _ hpk hnd hex, hnd.dedup]

/-- C5 witness: ids `[1, 2]` over a store holding exactly ingredients
1 and 2. -/
theorem create_recipe_success_distinct_witness :
    (∀ x ∈ ([1, 2] : List Int),
      ∃ i ∈ (DB.mk [] [⟨1, "Мука"⟩, ⟨2, "Сахар"⟩] []).ingredients,
        i.id = x) ∧
    ([1, 2] : List Int).Nodup ∧
    ∃ resp st',
      create_recipe ⟨"Пирог", 40, "Описание", [1, 2]⟩
          (DB.mk [] [⟨1, "Мука"⟩, ⟨2, "Сахар"⟩] []) = (.ok resp, st') ∧
      postRecipeStatus (.ok resp) = 201 ∧
      resp.views_count = 0 ∧
      resp.ingredients.length = ([1, 2] : List Int).dedup.length :=
  ⟨by decide, by decide,
    create_recipe_success_distinct (DB.mk [] [⟨1, "Мука"⟩, ⟨2, "Сахар"⟩] [])
      ⟨"Пирог", 40, "Описание", [1, 2]⟩ (by decide) (by decide) (by decide)
      (by decide)⟩

/-- C6 counterexample: the pydantic schema puts only `max_length=200`
on `title` — there is no minimum length — so a payload whose title is
the empty string passes validation, contradicting the claimed
"1 to 200 characters" bound and the claimed rejection of the empty
title. -/
theorem empty_title_accepted :
    validateRecipeCreate ⟨"", 30, "Описание", []⟩ = true ∧
    ¬ (1 ≤ ("" : String).length) :=
  ⟨by decide, by decide⟩

/-- C6 (amended): for payloads satisfying the only other field
constraint (`cooking_time > 0`), validation accepts the title iff it
has at most 200 characters; in particular the empty title is
accepted. -/
theorem validation_accepts_title_iff (p : RecipeCreate)
    (hc : 0 < p.cooking_time) :
    validateRecipeCreate p = true ↔ p.title.length ≤ 200 := by
  simp [validateRecipeCreate, hc]

/-- C6 witness: a payload with cooking time 30 and a short title. -/
theorem validation_accepts_title_iff_witness :
    0 < (RecipeCreate.mk "Суп" 30 "Описание" []).cooking_time ∧
    (validateRecipeCreate ⟨"Суп", 30, "Описание", []⟩ = true ↔
      (RecipeCreate.mk "Суп" 30 "Описание" []).title.length ≤ 200) :=
  ⟨by decide, validation_accepts_title_iff ⟨"Суп", 30, "Описание", []⟩
    (by decide)⟩

/-- The seed routine's existence guard: with at least one recipe row
present, the routine returns without touching the store. -/
theorem populate_of_recipes_ne_nil (st : DB) (h : st.recipes ≠ []) :
    populate_test_data st = st := by
  have hl : 0 < st.recipes.length := List.length_pos.mpr h
  rw [populate_test_data, if_pos hl]

/-- C7: the seed routine is idempotent — with any recipe row already
present it leaves the store unchanged, and from a store with no recipe
rows, running it twice equals running it once (whether or not the
ingredient insert hits a unique-name conflict and rolls back). -/
theorem populate_test_data_idempotent (st : DB) :
    (st.recipes ≠ [] → populate_test_data st = st) ∧
    (st.recipes = [] →
      populate_test_data (populate_test_data st) = populate_test_data st) := by
  refine ⟨populate_of_recipes_ne_nil st, ?_⟩
  intro h
  have hcond : ¬ (st.recipes.length > 0) := by simp [h]
  cases hins : insertIngredients ingredients_data st.ingredients with
  | none =>
      have h1 : populate_test_data st = st := by
        rw [populate_test_data, if_neg hcond, hins]
      rw [h1]
      exact h1
  | some pr =>
      obtain ⟨tbl, batch⟩ := pr
      apply populate_of_recipes_ne_nil
      rw [populate_test_data, if_neg hcond, hins]
      simp [h]

/-- C7 witness: a store that already has a recipe, and the empty
store. -/
theorem populate_test_data_idempotent_witness :
    ((DB.mk [⟨1, "Борщ", 60, "Суп", 4⟩] [] []).recipes ≠ [] ∧
      populate_test_data (DB.mk [⟨1, "Борщ", 60, "Суп", 4⟩] [] []) =
        DB.mk [⟨1, "Борщ", 60, "Суп", 4⟩] [] []) ∧
    ((DB.mk [] [] []).recipes = [] ∧
      populate_test_data (populate_test_data (DB.mk [] [] [])) =
        populate_test_data (DB.mk [] [] [])) :=
  ⟨⟨by decide, (populate_test_data_idempotent _).1 (by decide)⟩,
    ⟨rfl, (populate_test_data_idempotent _).2 rfl⟩⟩

end CookBook
